import Mathlib

/-!
Verification development for the YOLOX gRPC inference client
(`ovms_grpc_yolox.py`).  The detection post-processing (box decoding,
descaling, multiclass NMS, visualization dispatch), the performance logger
and the `main` control flow are embedded as executable Lean definitions;
machine floats are modelled as exact rationals.  The helper module
`yoloa.utils` / `yoloa.visualize` is not part of the sources at hand, so
the functions imported from it are modelled from the specification text
(each such definition says so in its doc comment).
-/

namespace Yolox

/-- Axis-aligned box in `(x1, y1, x2, y2)` corner form, coordinates as exact
rationals. -/
structure Box where
  x1 : ℚ
  y1 : ℚ
  x2 : ℚ
  y2 : ℚ
deriving DecidableEq

/-- Modelled from the spec: IoU, "overlap ratio between two boxes used as the
NMS suppression criterion" — intersection area over union area.  The
implementation in `yoloa.utils` is not under the available sources. -/
def iou (a b : Box) : ℚ :=
  (max 0 (min a.x2 b.x2 - max a.x1 b.x1) * max 0 (min a.y2 b.y2 - max a.y1 b.y1)) /
    ((a.x2 - a.x1) * (a.y2 - a.y1) + (b.x2 - b.x1) * (b.y2 - b.y1)
      - max 0 (min a.x2 b.x2 - max a.x1 b.x1) * max 0 (min a.y2 b.y2 - max a.y1 b.y1))

/-- NMS candidate: a box, its class score, and its original row index (the
index provides the stable, reproducible tie-break order the spec demands). -/
structure Cand where
  box : Box
  score : ℚ
  idx : ℕ
deriving DecidableEq

/-- Final detection: `{box, score, class_index}` as in the spec's data model. -/
structure Det where
  box : Box
  score : ℚ
  cls : ℕ
deriving DecidableEq

/-- Candidate order used by NMS sorting: strictly higher score first, ties
broken by ascending original index (the spec's determinism requirement). -/
def candBefore (a b : Cand) : Bool :=
  decide (b.score < a.score) || (decide (a.score = b.score) && decide (a.idx ≤ b.idx))

/-- Insertion step of the stable sort over candidates. -/
def insertCand (a : Cand) : List Cand → List Cand
  | [] => [a]
  | b :: t => if candBefore a b then a :: b :: t else b :: insertCand a t

/-- Modelled from the spec: "ordering candidates by descending score" with the
stable index tie-break; realised as an insertion sort. -/
def sortCands (l : List Cand) : List Cand :=
  l.foldr insertCand []

/-- Fuelled greedy NMS: keep the first (top-scoring) candidate and drop every
remaining candidate whose IoU with it exceeds the threshold, then recurse on
the survivors.  The fuel only bounds the recursion depth; `nmsGreedy` supplies
enough fuel for the recursion never to be cut short. -/
def nmsGreedyFuel (thr : ℚ) : ℕ → List Cand → List Cand
  | 0, _ => []
  | _ + 1, [] => []
  | fuel + 1, c :: rest =>
      c :: nmsGreedyFuel thr fuel (rest.filter (fun d => decide (iou c.box d.box ≤ thr)))

/-- Modelled from the spec: "run standard greedy NMS ordering candidates by
descending score, repeatedly keeping the top box and discarding any remaining
candidate whose IoU with it exceeds the threshold" (`yoloa.utils`, not under
the available sources).  Expects its input already sorted. -/
def nmsGreedy (thr : ℚ) (l : List Cand) : List Cand :=
  nmsGreedyFuel thr l.length l

/-- Indexed scan building the class-`c` candidate list: pairs of a box and its
score row, keeping the boxes whose class-`c` score is above the threshold. -/
def classCandsAux (c : ℕ) (scoreThr : ℚ) : ℕ → List (Box × List ℚ) → List Cand
  | _, [] => []
  | i, p :: rest =>
      match p.2[c]? with
      | some s =>
          if scoreThr < s then ⟨p.1, s, i⟩ :: classCandsAux c scoreThr (i + 1) rest
          else classCandsAux c scoreThr (i + 1) rest
      | none => classCandsAux c scoreThr (i + 1) rest

/-- Modelled from the spec: "for each class independently, discard boxes with
score below threshold" / "zero detections above threshold" — the class-`c`
candidates of `multiclass_nms`, each tagged with its original row index. -/
def classCands (boxes : List Box) (scores : List (List ℚ)) (c : ℕ) (scoreThr : ℚ) :
    List Cand :=
  classCandsAux c scoreThr 0 (boxes.zip scores)

/-- Per-class NMS survivors of all classes, concatenated in class order, each
survivor tagged with its class index. -/
def nmsAllClasses (boxes : List Box) (scores : List (List ℚ)) (numClasses : ℕ)
    (nmsThr scoreThr : ℚ) : List Det :=
  ((List.range numClasses).map (fun c =>
    (nmsGreedy nmsThr (sortCands (classCands boxes scores c scoreThr))).map
      (fun cand => Det.mk cand.box cand.score c))).flatten

/-- Modelled from the spec: `multiclass_nms` (`yoloa.utils`, not under the
available sources) — per-class score filtering, score-descending greedy NMS,
survivors concatenated across classes and tagged with their class index; the
designated empty result (Python `None`) when nothing survives. -/
def multiclassNms (boxes : List Box) (scores : List (List ℚ)) (numClasses : ℕ)
    (nmsThr scoreThr : ℚ) : Option (List Det) :=
  if (nmsAllClasses boxes scores numClasses nmsThr scoreThr).isEmpty then none
  else some (nmsAllClasses boxes scores numClasses nmsThr scoreThr)

/-- The `multiclass_nms` call of `infer_image` (source line 171):
`nms_thr=0.45`, `score_thr=0.3`. -/
def inferImageDets (boxesXyxy : List Box) (scores : List (List ℚ)) (numClasses : ℕ) :
    Option (List Det) :=
  multiclassNms boxesXyxy scores numClasses (45 / 100) (3 / 10)

/-- The `multiclass_nms` call of `infer_camera` (source line 217):
`nms_thr=0.45`, `score_thr=0.3`. -/
def inferCameraDets (boxesXyxy : List Box) (scores : List (List ℚ)) (numClasses : ℕ) :
    Option (List Det) :=
  multiclassNms boxesXyxy scores numClasses (45 / 100) (3 / 10)

/-- Image value: an abstract pixel buffer together with the detections drawn
onto it so far. -/
structure Image where
  pixels : List ℕ
  overlays : List Det
deriving DecidableEq

/-- Modelled from the spec: `yoloa.visualize.vis` (not under the available
sources) "draws boxes/labels/scores ... using the class name table and a fixed
confidence-display threshold" — detections scoring at least `conf` are drawn;
represented as appending them to the image's overlay list. -/
def vis (img : Image) (dets : List Det) (conf : ℚ) : Image :=
  { img with overlays := img.overlays ++ dets.filter (fun d => decide (conf ≤ d.score)) }

/-- File and directory names, modelled as character lists so that the
case-folding and suffix tests of the extension filter stay fully
executable. -/
abbrev Name := List Char

/-- Python `os.path.join` for the relative names this client builds. -/
def pathJoin (dir name : Name) : Name :=
  dir ++ '/' :: name

/-- Python `os.path.basename`: the part after the last slash. -/
def baseName (p : Name) : Name :=
  (p.reverse.takeWhile (fun c => decide (c ≠ '/'))).reverse

/-- Box decoding of `infer_image` / `infer_camera` (source lines 164-168):
center-size `(cx, cy, w, h)` to corner `xyxy` form. -/
def cxcywhToXyxy (cx cy w h : ℚ) : Box :=
  ⟨cx - w / 2, cy - h / 2, cx + w / 2, cy + h / 2⟩

/-- Elementwise descaling `boxes_xyxy /= ratio` (source lines 169 and 215). -/
def descaleBox (ratio : ℚ) (b : Box) : Box :=
  ⟨b.x1 / ratio, b.y1 / ratio, b.x2 / ratio, b.y2 / ratio⟩

/-- Descaling applied to a whole box array. -/
def descaleBoxes (ratio : ℚ) (bs : List Box) : List Box :=
  bs.map (descaleBox ratio)

/-- Elementwise re-scaling by `ratio`, the inverse direction of the descaling
step. -/
def rescaleBox (ratio : ℚ) (b : Box) : Box :=
  ⟨b.x1 * ratio, b.y1 * ratio, b.x2 * ratio, b.y2 * ratio⟩

/-- Re-scaling applied to a whole box array. -/
def rescaleBoxes (ratio : ℚ) (bs : List Box) : List Box :=
  bs.map (rescaleBox ratio)

/-- Detection-to-output tail of `infer_image` (source lines 171-184): run NMS;
when detections survive, draw them with confidence threshold `0.3`; write the
resulting image into the output directory under the input's base name.
Returns the written path and the written image. -/
def inferImageEmit (origin : Image) (outputPath inputPath : Name)
    (boxesXyxy : List Box) (scores : List (List ℚ)) (numClasses : ℕ) :
    Name × Image :=
  let img :=
    match inferImageDets boxesXyxy scores numClasses with
    | none => origin
    | some dets => vis origin dets (3 / 10)
  (pathJoin outputPath (baseName inputPath), img)

/-- Detection-to-output tail of `infer_camera` (source lines 217-231): run NMS;
with no surviving detections return a copy of the captured frame (Python
`copy.copy(input)`, same image value), otherwise return the frame with the
detections drawn at confidence threshold `0.3`. -/
def inferCameraEmit (input : Image) (boxesXyxy : List Box) (scores : List (List ℚ))
    (numClasses : ℕ) : Image :=
  match inferCameraDets boxesXyxy scores numClasses with
  | none => input
  | some dets => vis input dets (3 / 10)

/-- Row of a written CSV file: either the header row with its column titles or
one timing record. -/
inductive CsvRow where
  | header (cols : List String)
  | record (r : ℚ × ℚ × ℚ)
deriving DecidableEq

/-- Observable side effects of a run, in the order they happen. -/
inductive Effect where
  | printWarning
  | printMetadata
  | mkdirOutput (dir : Name)
  | startLog
  | readImage (p : Name)
  | inferCall
  | writeFile (p : Name)
  | logRecord (r : ℚ × ℚ × ℚ)
  | printAvgs
  | terminateGpuProc
  | convertGpuCsv
  | removeTempFile
  | printTempMissing
  | writeTimingCsv (rows : List CsvRow)
  | printSaved
deriving DecidableEq

/-- Tests whether an effect is the write of the timing CSV. -/
def isWriteTimingCsv : Effect → Bool
  | Effect.writeTimingCsv _ => true
  | _ => false

/-- Tests whether an effect is the append of one timing record. -/
def isLogRecord : Effect → Bool
  | Effect.logRecord _ => true
  | _ => false

/-- Tests whether an effect reads an input image. -/
def isReadImage : Effect → Bool
  | Effect.readImage _ => true
  | _ => false

/-- Tests whether an effect writes an output image file. -/
def isWriteFile : Effect → Bool
  | Effect.writeFile _ => true
  | _ => false

/-- State of `PerformanceLogger` relevant to the timing log: the accumulated
timing records (source line 79). -/
structure PerformanceLogger where
  time_records : List (ℚ × ℚ × ℚ)
deriving DecidableEq

/-- `PerformanceLogger.log` (source lines 132-138): appends exactly one timing
record `[prep_time, infer_time, postp_time]`; the index and total arguments
only feed the progress print. -/
def PerformanceLogger.log (pl : PerformanceLogger) (imageIndex totalLength : ℕ)
    (prepTime inferTime postpTime : ℚ) : PerformanceLogger :=
  { pl with time_records := pl.time_records ++ [(prepTime, inferTime, postpTime)] }

/-- Arguments of one `PerformanceLogger.log` call. -/
structure LogCall where
  imageIndex : ℕ
  totalLength : ℕ
  prepTime : ℚ
  inferTime : ℚ
  postpTime : ℚ

/-- A sequence of `PerformanceLogger.log` calls, applied in order. -/
def logMany (pl : PerformanceLogger) (calls : List LogCall) : PerformanceLogger :=
  calls.foldl
    (fun acc c => acc.log c.imageIndex c.totalLength c.prepTime c.inferTime c.postpTime) pl

/-- Rows of the timing CSV written by `stop_logging` (source lines 119-128):
the header row followed by every accumulated record, in order. -/
def timingCsvRows (records : List (ℚ × ℚ × ℚ)) : List CsvRow :=
  CsvRow.header
      ["Preprocessing_Time(ms)", "Inference_Time(ms)", "Postprocessing_Time(ms)"]
    :: records.map CsvRow.record

/-- Outcome of the `os.remove(self.temp_gpu_log)` call in `stop_logging`. -/
inductive RemoveResult where
  | removed
  | fileNotFound
  | otherOSError
deriving DecidableEq

/-- Uncaught Python exceptions a modelled run can end with. -/
inductive RunError where
  | divisionByZero
  | uncaughtOSError
deriving DecidableEq

/-- `PerformanceLogger.stop_logging` (source lines 107-130) with the outcome of
`os.remove` supplied by the environment: terminate the sampler subprocess,
convert the GPU log to CSV, attempt to delete the temporary log — only
`FileNotFoundError` is caught (and a message printed); any other OS error
propagates — then write the timing CSV and print the saved-file message.
Returns the effect trace and the result. -/
def PerformanceLogger.stop_logging (pl : PerformanceLogger) (rm : RemoveResult) :
    List Effect × Except RunError Unit :=
  let pre := [Effect.terminateGpuProc, Effect.convertGpuCsv, Effect.removeTempFile]
  match rm with
  | RemoveResult.removed =>
      (pre ++ [Effect.writeTimingCsv (timingCsvRows pl.time_records), Effect.printSaved],
        Except.ok ())
  | RemoveResult.fileNotFound =>
      (pre ++ [Effect.printTempMissing,
          Effect.writeTimingCsv (timingCsvRows pl.time_records), Effect.printSaved],
        Except.ok ())
  | RemoveResult.otherOSError =>
      (pre, Except.error RunError.uncaughtOSError)

/-- Batch-mode environment of `main` (source lines 234-277): the three server
checks, the directory listing, the wall-clock timing measurement of each
image, and the outcome of the temporary-file removal. -/
structure Env where
  serverLive : Bool
  serverReady : Bool
  modelReady : Bool
  imageDir : Name
  folderName : Name
  listing : List Name
  measure : Name → ℚ × ℚ × ℚ
  removeResult : RemoveResult

/-- The readiness guard of `main` (source lines 240-244). -/
def checksPass (e : Env) : Bool :=
  e.serverLive && e.serverReady && e.modelReady

/-- Python `str.lower` on a filename, character by character (`Char.toLower`
lower-cases exactly the ASCII letters, as `str.lower` does on ASCII names). -/
def lowerName (f : Name) : Name :=
  f.map Char.toLower

/-- Image-extension filter of `main` (source line 258):
`f.lower().endswith(("png", "jpg", "jpeg"))`. -/
def hasImageExt (f : Name) : Bool :=
  (['p', 'n', 'g'].isSuffixOf (lowerName f))
    || (['j', 'p', 'g'].isSuffixOf (lowerName f))
    || (['j', 'p', 'e', 'g'].isSuffixOf (lowerName f))

/-- Enumerated image paths of batch mode (source lines 255-259): directory
entries passing the extension filter, joined to the image directory. -/
def imageFiles (e : Env) : List Name :=
  (e.listing.filter hasImageExt).map (fun f => pathJoin e.imageDir f)

/-- Effects of one `infer_image` call as seen from `main` (source lines
141-191): read the input image, one remote inference call, write the output
image into the output directory under the input's base name. -/
def inferImageEffects (p outDir : Name) : List Effect :=
  [Effect.readImage p, Effect.inferCall, Effect.writeFile (pathJoin outDir (baseName p))]

/-- Batch-mode (`infer_mode = "img"`, the default) control flow of `main`
(source lines 240-277): the readiness guard (early return printing a warning),
metadata print, output directory creation, image enumeration, `start_logging`,
the per-image loop appending one timing record per image, the average-time
prints — whose divisor is `len(image_files)`, so an empty enumeration raises
`ZeroDivisionError` before `stop_logging` — and finally `stop_logging`.
Returns the effect trace and the run result. -/
def mainModel (e : Env) : List Effect × Except RunError Unit :=
  if checksPass e then
    let files := imageFiles e
    let outDir := ['.', '/', 'o', 'u', 't', 'p', 'u', 't', '/'] ++ e.folderName
    let pre := [Effect.printMetadata, Effect.mkdirOutput outDir, Effect.startLog]
      ++ files.flatMap (fun p => inferImageEffects p outDir ++ [Effect.logRecord (e.measure p)])
    if files.isEmpty then
      (pre, Except.error RunError.divisionByZero)
    else
      let logger : PerformanceLogger := ⟨files.map e.measure⟩
      let st := PerformanceLogger.stop_logging logger e.removeResult
      (pre ++ [Effect.printAvgs] ++ st.1, st.2)
  else ([Effect.printWarning], Except.ok ())

/-! Helper lemmas. -/

/-- One box survives the descale/re-scale round trip. -/
theorem rescaleBox_descaleBox (ratio : ℚ) (h : ratio ≠ 0) (b : Box) :
    rescaleBox ratio (descaleBox ratio b) = b := by
  cases b with
  | mk x1 y1 x2 y2 =>
      simp [rescaleBox, descaleBox, div_mul_cancel₀, h]

/-- `logMany` appends the records of its calls, in order. -/
theorem logMany_time_records (calls : List LogCall) (pl : PerformanceLogger) :
    (logMany pl calls).time_records
      = pl.time_records ++ calls.map (fun c => (c.prepTime, c.inferTime, c.postpTime)) := by
  induction calls generalizing pl with
  | nil => simp [logMany]
  | cons c cs ih =>
      simp only [logMany, List.foldl_cons] at *
      rw [ih]
      simp [PerformanceLogger.log]

/-- Symmetry of the IoU overlap ratio. -/
theorem iou_comm (a b : Box) : iou a b = iou b a := by
  unfold iou
  rw [min_comm a.x2 b.x2, max_comm a.x1 b.x1, min_comm a.y2 b.y2, max_comm a.y1 b.y1,
    add_comm ((a.x2 - a.x1) * (a.y2 - a.y1)) ((b.x2 - b.x1) * (b.y2 - b.y1))]

/-- Membership through the sort's insertion step. -/
theorem mem_insertCand (c : Cand) (l : List Cand) (a : Cand) :
    a ∈ insertCand c l ↔ a = c ∨ a ∈ l := by
  induction l with
  | nil => simp [insertCand]
  | cons b t ih =>
      by_cases hb : candBefore c b
      · simp [insertCand, hb]
      · simp only [insertCand, hb]
        simp only [Bool.false_eq_true, if_false, List.mem_cons, ih]
        tauto

/-- Sorting the candidates neither adds nor removes candidates. -/
theorem mem_sortCands (l : List Cand) (a : Cand) : a ∈ sortCands l ↔ a ∈ l := by
  induction l with
  | nil => simp [sortCands]
  | cons b t ih =>
      simp only [sortCands, List.foldr_cons] at *
      rw [mem_insertCand]
      simp [ih, eq_comm]

/-- Greedy NMS only keeps candidates that were in its input. -/
theorem mem_of_mem_nmsGreedyFuel (thr : ℚ) :
    ∀ (fuel : ℕ) (l : List Cand) (a : Cand), a ∈ nmsGreedyFuel thr fuel l → a ∈ l := by
  intro fuel
  induction fuel with
  | zero => intro l a h; simp [nmsGreedyFuel] at h
  | succ n ih =>
      intro l a h
      cases l with
      | nil => simp [nmsGreedyFuel] at h
      | cons c rest =>
          simp only [nmsGreedyFuel, List.mem_cons] at h ⊢
          rcases h with h | h
          · exact Or.inl h
          · exact Or.inr (List.mem_of_mem_filter (ih _ a h))

/-- Any two boxes kept by one greedy NMS pass overlap by at most the
threshold. -/
theorem nmsGreedyFuel_pairwise (thr : ℚ) :
    ∀ (fuel : ℕ) (l : List Cand),
      (nmsGreedyFuel thr fuel l).Pairwise (fun a b => iou a.box b.box ≤ thr) := by
  intro fuel
  induction fuel with
  | zero => intro l; simp [nmsGreedyFuel]
  | succ n ih =>
      intro l
      cases l with
      | nil => simp [nmsGreedyFuel]
      | cons c rest =>
          refine List.Pairwise.cons ?_ (ih _)
          intro b hb
          have hbf := mem_of_mem_nmsGreedyFuel thr n _ b hb
          have := List.of_mem_filter hbf
          simpa using this

/-- Every candidate kept by the per-class score filter scores strictly above
the threshold. -/
theorem score_lt_of_mem_classCandsAux (c : ℕ) (thr : ℚ) :
    ∀ (pairs : List (Box × List ℚ)) (i : ℕ) (a : Cand),
      a ∈ classCandsAux c thr i pairs → thr < a.score := by
  intro pairs
  induction pairs with
  | nil => intro i a h; simp [classCandsAux] at h
  | cons p rest ih =>
      intro i a h
      simp only [classCandsAux] at h
      split at h
      · next s hg =>
          split at h
          · next hs =>
              rcases List.mem_cons.mp h with h | h
              · subst h; exact hs
              · exact ih _ a h
          · exact ih _ a h
      · exact ih _ a h

/-- When every score of every row is at most the threshold, the per-class
candidate list is empty. -/
theorem classCandsAux_eq_nil (c : ℕ) (thr : ℚ) :
    ∀ (pairs : List (Box × List ℚ)) (i : ℕ),
      (∀ p ∈ pairs, ∀ s ∈ p.2, s ≤ thr) → classCandsAux c thr i pairs = [] := by
  intro pairs
  induction pairs with
  | nil => intro i _; simp [classCandsAux]
  | cons p rest ih =>
      intro i h
      have hrest : ∀ q ∈ rest, ∀ s ∈ q.2, s ≤ thr :=
        fun q hq => h q (List.mem_cons_of_mem _ hq)
      simp only [classCandsAux]
      split
      · next s hg =>
          have hs : s ≤ thr := h p (List.mem_cons_self _ _) s (List.getElem?_mem hg)
          rw [if_neg (not_lt.mpr hs)]
          exact ih _ hrest
      · exact ih _ hrest

/-- Any two same-class survivors of `multiclass_nms` overlap by at most the
NMS threshold. -/
theorem nmsAllClasses_pairwise (boxes : List Box) (scores : List (List ℚ))
    (numClasses : ℕ) (nmsThr scoreThr : ℚ) :
    (nmsAllClasses boxes scores numClasses nmsThr scoreThr).Pairwise
      (fun a b => a.cls = b.cls → iou a.box b.box ≤ nmsThr) := by
  unfold nmsAllClasses
  rw [List.pairwise_flatten]
  constructor
  · intro l hl
    rcases List.mem_map.mp hl with ⟨c, _, rfl⟩
    rw [List.pairwise_map]
    refine List.Pairwise.imp ?_ (nmsGreedyFuel_pairwise nmsThr _ _)
    intro a b h _
    exact h
  · rw [List.pairwise_map]
    refine (List.pairwise_lt_range numClasses).imp ?_
    intro c1 c2 hlt x hx y hy hcls
    rcases List.mem_map.mp hx with ⟨cx, _, rfl⟩
    rcases List.mem_map.mp hy with ⟨cy, _, rfl⟩
    exact absurd hcls (by simpa using Nat.ne_of_lt hlt)

/-- A `some` result of `multiclass_nms` is the concatenated per-class survivor
list. -/
theorem multiclassNms_eq_some (boxes : List Box) (scores : List (List ℚ))
    (numClasses : ℕ) (nmsThr scoreThr : ℚ) (dets : List Det)
    (h : multiclassNms boxes scores numClasses nmsThr scoreThr = some dets) :
    dets = nmsAllClasses boxes scores numClasses nmsThr scoreThr := by
  unfold multiclassNms at h
  split at h
  · exact absurd h (by simp)
  · exact (Option.some.injEq _ _ ▸ h).symm

/-- Every survivor of `multiclass_nms` scores strictly above the score
threshold. -/
theorem multiclassNms_score_lt (boxes : List Box) (scores : List (List ℚ))
    (numClasses : ℕ) (nmsThr scoreThr : ℚ) (dets : List Det)
    (h : multiclassNms boxes scores numClasses nmsThr scoreThr = some dets) :
    ∀ d ∈ dets, scoreThr < d.score := by
  intro d hd
  rw [multiclassNms_eq_some boxes scores numClasses nmsThr scoreThr dets h] at hd
  unfold nmsAllClasses at hd
  rcases List.mem_flatten.mp hd with ⟨l, hl, hdl⟩
  rcases List.mem_map.mp hl with ⟨c, _, rfl⟩
  rcases List.mem_map.mp hdl with ⟨cand, hcand, rfl⟩
  have h1 := mem_of_mem_nmsGreedyFuel nmsThr _ _ cand hcand
  have h2 := (mem_sortCands _ cand).mp h1
  exact score_lt_of_mem_classCandsAux c scoreThr _ _ cand h2

/-- When no score exceeds the threshold, `multiclass_nms` returns the
designated empty result. -/
theorem multiclassNms_eq_none (boxes : List Box) (scores : List (List ℚ))
    (numClasses : ℕ) (nmsThr scoreThr : ℚ)
    (h : ∀ row ∈ scores, ∀ s ∈ row, s ≤ scoreThr) :
    multiclassNms boxes scores numClasses nmsThr scoreThr = none := by
  have hnil : ∀ c : ℕ, classCands boxes scores c scoreThr = [] := by
    intro c
    refine classCandsAux_eq_nil c scoreThr _ 0 ?_
    intro p hp s hs
    exact h p.2 (List.of_mem_zip hp).2 s hs
  have hall : nmsAllClasses boxes scores numClasses nmsThr scoreThr = [] := by
    unfold nmsAllClasses
    rw [List.flatten_eq_nil_iff]
    intro l hl
    rcases List.mem_map.mp hl with ⟨c, _, rfl⟩
    rw [hnil c]
    simp [sortCands, nmsGreedy, nmsGreedyFuel]
  unfold multiclassNms
  rw [hall]
  simp

/-- Counting one matching effect per processed file across the batch loop. -/
theorem countP_flatMap_one (q : Effect → Bool) (f : Name → List Effect)
    (h : ∀ p, ((f p).countP q) = 1) :
    ∀ l : List Name, ((l.flatMap f).countP q) = l.length := by
  intro l
  induction l with
  | nil => simp
  | cons a t ih => simp [List.flatMap_cons, List.countP_append, h, ih, Nat.add_comm]

/-- The `stop_logging` trace contains no image read, no image write, and no
timing-record append. -/
theorem stop_logging_counts (pl : PerformanceLogger) (rm : RemoveResult) :
    ((pl.stop_logging rm).1.countP isReadImage = 0)
      ∧ ((pl.stop_logging rm).1.countP isWriteFile = 0)
      ∧ ((pl.stop_logging rm).1.countP isLogRecord = 0) := by
  cases rm <;>
    simp [PerformanceLogger.stop_logging, isReadImage, isWriteFile, isLogRecord]

/-! Theorems for the claims. -/

/-- C7: for every box array and every nonzero resize ratio, descaling by
elementwise division by `ratio` followed by elementwise multiplication by
`ratio` reproduces the pre-descale xyxy coordinates exactly (coordinates are
modelled as exact rationals). -/
theorem descale_rescale_round_trip (ratio : ℚ) (bs : List Box) (h : ratio ≠ 0) :
    rescaleBoxes ratio (descaleBoxes ratio bs) = bs := by
  induction bs with
  | nil => simp [rescaleBoxes, descaleBoxes]
  | cons b t ih =>
      simpa [rescaleBoxes, descaleBoxes, rescaleBox_descaleBox ratio h b]
        using ih

/-- Witness for C7 at ratio 2 and one concrete box. -/
theorem descale_rescale_round_trip_witness :
    (2 : ℚ) ≠ 0 ∧ rescaleBoxes 2 (descaleBoxes 2 [⟨1, 2, 3, 4⟩]) = [⟨1, 2, 3, 4⟩] :=
  ⟨by norm_num, descale_rescale_round_trip 2 [⟨1, 2, 3, 4⟩] (by norm_num)⟩

/-- C6: after `N` `PerformanceLogger.log` calls, the timing CSV written by
`stop_logging` has exactly `N + 1` rows — the header
`Preprocessing_Time(ms), Inference_Time(ms), Postprocessing_Time(ms)` followed
by the `N` records in the order they were logged. -/
theorem timing_csv_header_then_records (calls : List LogCall) :
    timingCsvRows (logMany ⟨[]⟩ calls).time_records
        = CsvRow.header
            ["Preprocessing_Time(ms)", "Inference_Time(ms)", "Postprocessing_Time(ms)"]
          :: calls.map (fun c => CsvRow.record (c.prepTime, c.inferTime, c.postpTime))
      ∧ (timingCsvRows (logMany ⟨[]⟩ calls).time_records).length = calls.length + 1 := by
  constructor
  · simp [timingCsvRows, logMany_time_records]
  · simp [timingCsvRows, logMany_time_records]

/-- C1: for every candidate set handed to `multiclass_nms` (in the pipeline:
IoU threshold 0.45 and score threshold 0.3 at the call sites in `infer_image`
and `infer_camera`), no two distinct surviving detections of the same class
have IoU greater than the configured IoU threshold. -/
theorem multiclassNms_same_class_iou_le (boxes : List Box) (scores : List (List ℚ))
    (numClasses : ℕ) (nmsThr scoreThr : ℚ) (dets : List Det)
    (h : multiclassNms boxes scores numClasses nmsThr scoreThr = some dets) :
    ∀ i j : Fin dets.length, i ≠ j → (dets.get i).cls = (dets.get j).cls →
      iou (dets.get i).box (dets.get j).box ≤ nmsThr := by
  have hp : dets.Pairwise (fun a b => a.cls = b.cls → iou a.box b.box ≤ nmsThr) := by
    rw [multiclassNms_eq_some boxes scores numClasses nmsThr scoreThr dets h]
    exact nmsAllClasses_pairwise boxes scores numClasses nmsThr scoreThr
  intro i j hne hcls
  rcases lt_or_gt_of_ne hne with hij | hij
  · exact (List.pairwise_iff_get.mp hp) i j hij hcls
  · rw [iou_comm]
    exact (List.pairwise_iff_get.mp hp) j i hij hcls.symm

/-- Witness for C1: a concrete two-candidate set in which both boxes survive
for the same class. -/
theorem multiclassNms_same_class_iou_le_witness :
    multiclassNms [⟨0, 0, 1, 1⟩, ⟨100, 100, 101, 101⟩] [[9 / 10], [8 / 10]] 1
          (45 / 100) (3 / 10)
        = some [⟨⟨0, 0, 1, 1⟩, 9 / 10, 0⟩, ⟨⟨100, 100, 101, 101⟩, 8 / 10, 0⟩]
      ∧ ∀ i j : Fin ([⟨⟨0, 0, 1, 1⟩, 9 / 10, 0⟩,
            ⟨⟨100, 100, 101, 101⟩, 8 / 10, 0⟩] : List Det).length,
          i ≠ j →
          (([⟨⟨0, 0, 1, 1⟩, 9 / 10, 0⟩,
              ⟨⟨100, 100, 101, 101⟩, 8 / 10, 0⟩] : List Det).get i).cls
            = (([⟨⟨0, 0, 1, 1⟩, 9 / 10, 0⟩,
                ⟨⟨100, 100, 101, 101⟩, 8 / 10, 0⟩] : List Det).get j).cls →
          iou (([⟨⟨0, 0, 1, 1⟩, 9 / 10, 0⟩,
                ⟨⟨100, 100, 101, 101⟩, 8 / 10, 0⟩] : List Det).get i).box
              (([⟨⟨0, 0, 1, 1⟩, 9 / 10, 0⟩,
                ⟨⟨100, 100, 101, 101⟩, 8 / 10, 0⟩] : List Det).get j).box
            ≤ 45 / 100 := by
  have hEq : multiclassNms [⟨0, 0, 1, 1⟩, ⟨100, 100, 101, 101⟩] [[9 / 10], [8 / 10]] 1
      (45 / 100) (3 / 10)
      = some [⟨⟨0, 0, 1, 1⟩, 9 / 10, 0⟩, ⟨⟨100, 100, 101, 101⟩, 8 / 10, 0⟩] := by
    norm_num [multiclassNms, nmsAllClasses, classCands, classCandsAux, sortCands,
      insertCand, candBefore, nmsGreedy, nmsGreedyFuel, iou, max_def, min_def,
      List.range_succ]
  exact ⟨hEq, multiclassNms_same_class_iou_le _ _ _ _ _ _ hEq⟩

/-- C2: when no candidate score exceeds the score threshold 0.3, the pipeline
NMS yields the designated empty result (`None`), so the visualization step is
skipped and both the batch-mode written image and the camera-mode return value
are the unmodified input image. -/
theorem no_detections_passthrough (origin input : Image) (outputPath inputPath : Name)
    (boxes : List Box) (scores : List (List ℚ)) (numClasses : ℕ)
    (h : ∀ row ∈ scores, ∀ s ∈ row, s ≤ (3 / 10 : ℚ)) :
    inferImageDets boxes scores numClasses = none
      ∧ (inferImageEmit origin outputPath inputPath boxes scores numClasses).2 = origin
      ∧ inferCameraEmit input boxes scores numClasses = input := by
  have hn : inferImageDets boxes scores numClasses = none := by
    unfold inferImageDets
    exact multiclassNms_eq_none _ _ _ _ _ h
  have hn2 : inferCameraDets boxes scores numClasses = none := by
    unfold inferCameraDets
    exact multiclassNms_eq_none _ _ _ _ _ h
  refine ⟨hn, ?_, ?_⟩
  · simp [inferImageEmit, hn]
  · simp [inferCameraEmit, hn2]

/-- Witness for C2: one candidate whose only class score is 0.1. -/
theorem no_detections_passthrough_witness :
    (∀ row ∈ [[(1 : ℚ) / 10]], ∀ s ∈ row, s ≤ (3 / 10 : ℚ))
      ∧ (inferImageDets [⟨0, 0, 1, 1⟩] [[1 / 10]] 1 = none
        ∧ (inferImageEmit ⟨[5, 6], []⟩ ['o'] ['d', '/', 'a'] [⟨0, 0, 1, 1⟩] [[1 / 10]] 1).2
            = ⟨[5, 6], []⟩
        ∧ inferCameraEmit ⟨[7], []⟩ [⟨0, 0, 1, 1⟩] [[1 / 10]] 1 = ⟨[7], []⟩) := by
  have h : ∀ row ∈ [[(1 : ℚ) / 10]], ∀ s ∈ row, s ≤ (3 / 10 : ℚ) := by
    intro row hr s hs
    simp only [List.mem_singleton] at hr
    subst hr
    simp only [List.mem_singleton] at hs
    subst hs
    norm_num
  exact ⟨h, no_detections_passthrough ⟨[5, 6], []⟩ ⟨[7], []⟩ ['o'] ['d', '/', 'a'] _ _ 1 h⟩

/-- C3: every detection surviving `multiclass_nms` has score at least the
score threshold (0.3 in the default pipeline; in fact the filter is strict, so
survivors score strictly above it). -/
theorem multiclassNms_score_ge_threshold (boxes : List Box) (scores : List (List ℚ))
    (numClasses : ℕ) (nmsThr scoreThr : ℚ) (dets : List Det)
    (h : multiclassNms boxes scores numClasses nmsThr scoreThr = some dets) :
    ∀ d ∈ dets, scoreThr ≤ d.score :=
  fun d hd =>
    le_of_lt (multiclassNms_score_lt boxes scores numClasses nmsThr scoreThr dets h d hd)

/-- Witness for C3 on a concrete two-candidate set. -/
theorem multiclassNms_score_ge_threshold_witness :
    multiclassNms [⟨0, 0, 2, 2⟩, ⟨50, 50, 52, 52⟩] [[7 / 10], [6 / 10]] 1
          (45 / 100) (3 / 10)
        = some [⟨⟨0, 0, 2, 2⟩, 7 / 10, 0⟩, ⟨⟨50, 50, 52, 52⟩, 6 / 10, 0⟩]
      ∧ ∀ d ∈ ([⟨⟨0, 0, 2, 2⟩, 7 / 10, 0⟩, ⟨⟨50, 50, 52, 52⟩, 6 / 10, 0⟩] : List Det),
          (3 / 10 : ℚ) ≤ d.score := by
  have hEq : multiclassNms [⟨0, 0, 2, 2⟩, ⟨50, 50, 52, 52⟩] [[7 / 10], [6 / 10]] 1
      (45 / 100) (3 / 10)
      = some [⟨⟨0, 0, 2, 2⟩, 7 / 10, 0⟩, ⟨⟨50, 50, 52, 52⟩, 6 / 10, 0⟩] := by
    norm_num [multiclassNms, nmsAllClasses, classCands, classCandsAux, sortCands,
      insertCand, candBefore, nmsGreedy, nmsGreedyFuel, iou, max_def, min_def,
      List.range_succ]
  exact ⟨hEq, multiclassNms_score_ge_threshold _ _ _ _ _ _ hEq⟩

/-- C5: with surviving detections, batch mode writes the drawn image to a new
output file (the output directory joined with the input's base name) while the
loaded image value itself stays available unmodified, camera mode returns the
captured frame with the detections drawn, and both visualization calls use the
fixed confidence-display threshold 0.3. -/
theorem visualization_targets_and_conf (origin input : Image) (outputPath inputPath : Name)
    (boxes : List Box) (scores : List (List ℚ)) (numClasses : ℕ) (dets : List Det)
    (h : inferImageDets boxes scores numClasses = some dets) :
    inferImageEmit origin outputPath inputPath boxes scores numClasses
        = (pathJoin outputPath (baseName inputPath), vis origin dets (3 / 10))
      ∧ inferCameraEmit input boxes scores numClasses = vis input dets (3 / 10) := by
  have h2 : inferCameraDets boxes scores numClasses = some dets := h
  constructor
  · simp [inferImageEmit, h]
  · simp [inferCameraEmit, h2]

/-- Witness for C5 on a concrete surviving detection set. -/
theorem visualization_targets_and_conf_witness :
    inferImageDets [⟨0, 0, 3, 3⟩] [[9 / 10]] 1
        = some [⟨⟨0, 0, 3, 3⟩, 9 / 10, 0⟩]
      ∧ (inferImageEmit ⟨[1], []⟩ ['o', 'u', 't'] ['d', '/', 'i', '.', 'j', 'p', 'g']
              [⟨0, 0, 3, 3⟩] [[9 / 10]] 1
            = (pathJoin ['o', 'u', 't'] (baseName ['d', '/', 'i', '.', 'j', 'p', 'g']),
                vis ⟨[1], []⟩ [⟨⟨0, 0, 3, 3⟩, 9 / 10, 0⟩] (3 / 10))
        ∧ inferCameraEmit ⟨[2], []⟩ [⟨0, 0, 3, 3⟩] [[9 / 10]] 1
            = vis ⟨[2], []⟩ [⟨⟨0, 0, 3, 3⟩, 9 / 10, 0⟩] (3 / 10)) := by
  have hEq : inferImageDets [⟨0, 0, 3, 3⟩] [[9 / 10]] 1
      = some [⟨⟨0, 0, 3, 3⟩, 9 / 10, 0⟩] := by
    norm_num [inferImageDets, multiclassNms, nmsAllClasses, classCands, classCandsAux,
      sortCands, insertCand, candBefore, nmsGreedy, nmsGreedyFuel, iou, max_def,
      min_def, List.range_succ]
  exact ⟨hEq,
    visualization_targets_and_conf ⟨[1], []⟩ ⟨[2], []⟩ ['o', 'u', 't']
      ['d', '/', 'i', '.', 'j', 'p', 'g'] _ _ 1 _ hEq⟩

/-- C8 counterexample: when `os.remove` fails with an error other than
`FileNotFoundError`, `stop_logging` escalates it and never writes the timing
CSV — refuting the claim that any removal failure is swallowed. -/
theorem stop_logging_other_error_escalates :
    PerformanceLogger.stop_logging ⟨[(1, 2, 3)]⟩ RemoveResult.otherOSError
      = ([Effect.terminateGpuProc, Effect.convertGpuCsv, Effect.removeTempFile],
          Except.error RunError.uncaughtOSError) := rfl

/-- C8 (amended): a `FileNotFoundError` from removing the temporary GPU log
(and only that failure) is caught and logged, and `stop_logging` still writes
the timing CSV and returns normally. -/
theorem stop_logging_missing_file_tolerated (pl : PerformanceLogger) (rm : RemoveResult)
    (h : rm = RemoveResult.removed ∨ rm = RemoveResult.fileNotFound) :
    (pl.stop_logging rm).2 = Except.ok ()
      ∧ Effect.writeTimingCsv (timingCsvRows pl.time_records) ∈ (pl.stop_logging rm).1 := by
  rcases h with h | h <;> subst h <;>
    simp [PerformanceLogger.stop_logging]

/-- Witness for the amended C8 at a concrete logger state and a missing file. -/
theorem stop_logging_missing_file_tolerated_witness :
    (RemoveResult.fileNotFound = RemoveResult.removed
        ∨ RemoveResult.fileNotFound = RemoveResult.fileNotFound)
      ∧ ((PerformanceLogger.stop_logging ⟨[(1, 2, 3)]⟩ RemoveResult.fileNotFound).2
            = Except.ok ()
        ∧ Effect.writeTimingCsv (timingCsvRows [(1, 2, 3)])
            ∈ (PerformanceLogger.stop_logging ⟨[(1, 2, 3)]⟩ RemoveResult.fileNotFound).1) :=
  ⟨Or.inr rfl,
    stop_logging_missing_file_tolerated ⟨[(1, 2, 3)]⟩ RemoveResult.fileNotFound (Or.inr rfl)⟩

/-- C4: if any of the server-liveness, server-readiness, or model-readiness
checks fails, `main` prints the warning and returns normally, processing zero
items: no image read, no inference call, no log file written. -/
theorem main_early_return (e : Env)
    (h : e.serverLive = false ∨ e.serverReady = false ∨ e.modelReady = false) :
    mainModel e = ([Effect.printWarning], Except.ok ())
      ∧ (mainModel e).1.countP isReadImage = 0
      ∧ Effect.inferCall ∉ (mainModel e).1
      ∧ (mainModel e).1.countP isWriteTimingCsv = 0
      ∧ Effect.convertGpuCsv ∉ (mainModel e).1 := by
  have hc : checksPass e = false := by
    unfold checksPass
    rcases h with h | h | h <;> simp [h]
  have hm : mainModel e = ([Effect.printWarning], Except.ok ()) := by
    unfold mainModel
    rw [hc]
    simp
  refine ⟨hm, ?_, ?_, ?_, ?_⟩ <;>
    simp [hm, isReadImage, isWriteTimingCsv]

/-- Witness for C4: a concrete environment whose liveness check fails. -/
theorem main_early_return_witness :
    ((⟨false, true, true, ['d'], ['f'], [['a', '.', 'j', 'p', 'g']],
          fun _ => (0, 0, 0), RemoveResult.removed⟩ : Env).serverLive = false
        ∨ (⟨false, true, true, ['d'], ['f'], [['a', '.', 'j', 'p', 'g']],
            fun _ => (0, 0, 0), RemoveResult.removed⟩ : Env).serverReady = false
        ∨ (⟨false, true, true, ['d'], ['f'], [['a', '.', 'j', 'p', 'g']],
            fun _ => (0, 0, 0), RemoveResult.removed⟩ : Env).modelReady = false)
      ∧ (mainModel ⟨false, true, true, ['d'], ['f'], [['a', '.', 'j', 'p', 'g']],
            fun _ => (0, 0, 0), RemoveResult.removed⟩
            = ([Effect.printWarning], Except.ok ())
        ∧ (mainModel ⟨false, true, true, ['d'], ['f'], [['a', '.', 'j', 'p', 'g']],
              fun _ => (0, 0, 0), RemoveResult.removed⟩).1.countP isReadImage = 0
        ∧ Effect.inferCall ∉ (mainModel ⟨false, true, true, ['d'], ['f'],
              [['a', '.', 'j', 'p', 'g']], fun _ => (0, 0, 0), RemoveResult.removed⟩).1
        ∧ (mainModel ⟨false, true, true, ['d'], ['f'], [['a', '.', 'j', 'p', 'g']],
              fun _ => (0, 0, 0), RemoveResult.removed⟩).1.countP isWriteTimingCsv = 0
        ∧ Effect.convertGpuCsv ∉ (mainModel ⟨false, true, true, ['d'], ['f'],
              [['a', '.', 'j', 'p', 'g']], fun _ => (0, 0, 0), RemoveResult.removed⟩).1) :=
  ⟨Or.inl rfl, main_early_return _ (Or.inl rfl)⟩

/-- C9: with the checks passing and no acceptably-named file in the image
directory, the batch run stops with `ZeroDivisionError` while computing the
average stage times — after `start_logging` and before `stop_logging`, leaving
the timing CSV unwritten. -/
theorem empty_dir_division_by_zero (e : Env) (hc : checksPass e = true)
    (h : e.listing.filter hasImageExt = []) :
    mainModel e
        = ([Effect.printMetadata,
            Effect.mkdirOutput (['.', '/', 'o', 'u', 't', 'p', 'u', 't', '/'] ++ e.folderName),
            Effect.startLog], Except.error RunError.divisionByZero)
      ∧ Effect.startLog ∈ (mainModel e).1
      ∧ (mainModel e).1.countP isWriteTimingCsv = 0 := by
  have hf : imageFiles e = [] := by
    simp [imageFiles, h]
  have hm : mainModel e
      = ([Effect.printMetadata,
          Effect.mkdirOutput (['.', '/', 'o', 'u', 't', 'p', 'u', 't', '/'] ++ e.folderName),
          Effect.startLog], Except.error RunError.divisionByZero) := by
    unfold mainModel
    rw [hc, hf]
    simp
  refine ⟨hm, ?_, ?_⟩ <;> simp [hm, isWriteTimingCsv]

/-- Witness for C9: an environment whose directory holds only a text file. -/
theorem empty_dir_division_by_zero_witness :
    checksPass ⟨true, true, true, ['d'], ['f'], [['a', '.', 't', 'x', 't']],
          fun _ => (0, 0, 0), RemoveResult.removed⟩ = true
      ∧ (⟨true, true, true, ['d'], ['f'], [['a', '.', 't', 'x', 't']],
            fun _ => (0, 0, 0), RemoveResult.removed⟩ : Env).listing.filter hasImageExt = []
      ∧ (mainModel ⟨true, true, true, ['d'], ['f'], [['a', '.', 't', 'x', 't']],
              fun _ => (0, 0, 0), RemoveResult.removed⟩
            = ([Effect.printMetadata,
                Effect.mkdirOutput (['.', '/', 'o', 'u', 't', 'p', 'u', 't', '/'] ++ ['f']),
                Effect.startLog], Except.error RunError.divisionByZero)
        ∧ Effect.startLog ∈ (mainModel ⟨true, true, true, ['d'], ['f'],
              [['a', '.', 't', 'x', 't']], fun _ => (0, 0, 0), RemoveResult.removed⟩).1
        ∧ (mainModel ⟨true, true, true, ['d'], ['f'], [['a', '.', 't', 'x', 't']],
              fun _ => (0, 0, 0), RemoveResult.removed⟩).1.countP isWriteTimingCsv = 0) :=
  ⟨rfl, by decide,
    empty_dir_division_by_zero _ rfl (by decide)⟩

/-- C10: batch mode enumerates exactly those directory entries whose
lower-cased name ends with png, jpg, or jpeg (joined to the image directory);
the run performs exactly one image read, one output-image write, and one
timing record per enumerated file, so every other entry contributes nothing. -/
theorem batch_enumeration (e : Env) (hc : checksPass e = true) :
    (∀ p, p ∈ imageFiles e
        ↔ ∃ f, f ∈ e.listing ∧ hasImageExt f = true ∧ p = pathJoin e.imageDir f)
      ∧ (mainModel e).1.countP isReadImage = (imageFiles e).length
      ∧ (mainModel e).1.countP isWriteFile = (imageFiles e).length
      ∧ (mainModel e).1.countP isLogRecord = (imageFiles e).length := by
  have hmem : ∀ p, p ∈ imageFiles e
      ↔ ∃ f, f ∈ e.listing ∧ hasImageExt f = true ∧ p = pathJoin e.imageDir f := by
    intro p
    simp only [imageFiles, List.mem_map, List.mem_filter]
    constructor
    · rintro ⟨f, ⟨hf, hx⟩, rfl⟩
      exact ⟨f, hf, hx, rfl⟩
    · rintro ⟨f, hf, hx, rfl⟩
      exact ⟨f, ⟨hf, hx⟩, rfl⟩
  have hblock : ∀ (outDir : Name) (m : Name → ℚ × ℚ × ℚ) (q : Effect → Bool),
      (∀ p r, ((inferImageEffects p outDir ++ [Effect.logRecord r]).countP q) = 1) →
      ∀ l : List Name,
        ((l.flatMap (fun p => inferImageEffects p outDir ++ [Effect.logRecord (m p)])).countP q)
          = l.length := by
    intro outDir m q hq l
    induction l with
    | nil => simp
    | cons a t ih =>
        simp only [List.flatMap_cons, List.countP_append, hq, ih, List.length_cons]
        omega
  have hread : ∀ (p outDir : Name) (r : ℚ × ℚ × ℚ),
      ((inferImageEffects p outDir ++ [Effect.logRecord r]).countP isReadImage) = 1 := by
    intro p outDir r
    simp [inferImageEffects, isReadImage]
  have hwrite : ∀ (p outDir : Name) (r : ℚ × ℚ × ℚ),
      ((inferImageEffects p outDir ++ [Effect.logRecord r]).countP isWriteFile) = 1 := by
    intro p outDir r
    simp [inferImageEffects, isWriteFile]
  have hlog : ∀ (p outDir : Name) (r : ℚ × ℚ × ℚ),
      ((inferImageEffects p outDir ++ [Effect.logRecord r]).countP isLogRecord) = 1 := by
    intro p outDir r
    simp [inferImageEffects, isLogRecord]
  refine ⟨hmem, ?_, ?_, ?_⟩ <;>
  · unfold mainModel
    rw [hc]
    by_cases hf : (imageFiles e).isEmpty <;>
      simp [hf, List.countP_append, isReadImage, isWriteFile, isLogRecord,
        hblock _ _ _ (fun p r => hread p _ r),
        hblock _ _ _ (fun p r => hwrite p _ r),
        hblock _ _ _ (fun p r => hlog p _ r),
        (stop_logging_counts _ _).1, (stop_logging_counts _ _).2.1,
        (stop_logging_counts _ _).2.2]

/-- Witness for C10: a directory with one image entry and one text entry. -/
theorem batch_enumeration_witness :
    checksPass ⟨true, true, true, ['d'], ['f'],
          [['a', '.', 'j', 'p', 'g'], ['b', '.', 't', 'x', 't']],
          fun _ => (0, 0, 0), RemoveResult.removed⟩ = true
      ∧ ((∀ p, p ∈ imageFiles ⟨true, true, true, ['d'], ['f'],
              [['a', '.', 'j', 'p', 'g'], ['b', '.', 't', 'x', 't']],
              fun _ => (0, 0, 0), RemoveResult.removed⟩
            ↔ ∃ f, f ∈ (⟨true, true, true, ['d'], ['f'],
                  [['a', '.', 'j', 'p', 'g'], ['b', '.', 't', 'x', 't']],
                  fun _ => (0, 0, 0), RemoveResult.removed⟩ : Env).listing
                ∧ hasImageExt f = true ∧ p = pathJoin ['d'] f)
        ∧ (mainModel ⟨true, true, true, ['d'], ['f'],
              [['a', '.', 'j', 'p', 'g'], ['b', '.', 't', 'x', 't']],
              fun _ => (0, 0, 0), RemoveResult.removed⟩).1.countP isReadImage
            = (imageFiles ⟨true, true, true, ['d'], ['f'],
                [['a', '.', 'j', 'p', 'g'], ['b', '.', 't', 'x', 't']],
                fun _ => (0, 0, 0), RemoveResult.removed⟩).length
        ∧ (mainModel ⟨true, true, true, ['d'], ['f'],
              [['a', '.', 'j', 'p', 'g'], ['b', '.', 't', 'x', 't']],
              fun _ => (0, 0, 0), RemoveResult.removed⟩).1.countP isWriteFile
            = (imageFiles ⟨true, true, true, ['d'], ['f'],
                [['a', '.', 'j', 'p', 'g'], ['b', '.', 't', 'x', 't']],
                fun _ => (0, 0, 0), RemoveResult.removed⟩).length
        ∧ (mainModel ⟨true, true, true, ['d'], ['f'],
              [['a', '.', 'j', 'p', 'g'], ['b', '.', 't', 'x', 't']],
              fun _ => (0, 0, 0), RemoveResult.removed⟩).1.countP isLogRecord
            = (imageFiles ⟨true, true, true, ['d'], ['f'],
                [['a', '.', 'j', 'p', 'g'], ['b', '.', 't', 'x', 't']],
                fun _ => (0, 0, 0), RemoveResult.removed⟩).length) :=
  ⟨rfl, batch_enumeration _ rfl⟩

end Yolox
